import Mathlib

/-
  Verification of the gnaf-loader pipeline (load-gnaf.py).

  The pure logic of the pipeline is embedded shallowly:
  * Python string operations (lower, replace, startswith, endswith, `in`)
    are modelled over `List Char`;
  * work discovery (`get_raw_gnaf_files`, the shapefile scan inside
    `load_raw_admin_boundaries`), the SQL-script rewriting in
    `create_raw_gnaf_tables`, the line filter of `index_raw_gnaf` /
    `create_reference_tables`, the authority-table cleaner
    (`clean_authority_files`) and the QA comparator (`create_qa_tables`)
    are translated function by function;
  * the staged controller `main` is modelled as a state-passing function
    recording which stages ran, which fatal messages were logged and what
    work was executed.  Database effects are represented by the data they
    act on (authority tables as row lists, QA counts as association lists).
-/

set_option maxHeartbeats 1000000

/-- Single-quote character (used when assembling SQL text). -/
def sqChar : Char := Char.ofNat 39

/-- Backslash character (used by the Windows-path fix in `get_raw_gnaf_files`). -/
def bslChar : Char := Char.ofNat 92

/-- Embedding of Python `str.lower` (ASCII data in this pipeline). -/
def pyLower (s : List Char) : List Char := s.map Char.toLower

/-- Fuel-driven worker for Python `str.replace`: scan left to right, replace
each non-overlapping occurrence of `p` by `r` greedily.  The fuel is always
instantiated with the length of the string, which suffices because every
step consumes at least one character. -/
def pyReplaceF (p r : List Char) : Nat → List Char → List Char
  | _, [] => []
  | 0, s => s
  | Nat.succ n, c :: s =>
    if p ≠ [] ∧ p.isPrefixOf (c :: s) then r ++ pyReplaceF p r n (s.drop (p.length - 1))
    else c :: pyReplaceF p r n s

/-- Embedding of Python `s.replace(p, r)` (replace all occurrences). -/
def pyReplace (p r s : List Char) : List Char := pyReplaceF p r s.length s

/-- Embedding of Python `s.replace(p, r, 1)` (replace the first occurrence only). -/
def pyReplaceOnce (p r : List Char) : List Char → List Char
  | [] => []
  | c :: s =>
    if p ≠ [] ∧ p.isPrefixOf (c :: s) then r ++ (c :: s).drop p.length
    else c :: pyReplaceOnce p r s

/-- Embedding of the Python substring test `p in s`. -/
def hasInfixL (p : List Char) : List Char → Bool
  | [] => p.isEmpty
  | c :: s => p.isPrefixOf (c :: s) || hasInfixL p s

/-- Embedding of posix `os.path.join` as used on the discovered files. -/
def pyJoin (a b : List Char) : List Char :=
  if b.take 1 = ['/'] then b
  else if a = [] then b
  else if a.getLast? = some '/' then a ++ b
  else a ++ '/' :: b

/-- One directory visited by `os.walk`: its path and the files in it. -/
structure WalkEntry where
  root : List Char
  files : List (List Char)
deriving DecidableEq

/-- The bulk-load statement built in `get_raw_gnaf_files`: a COPY ... FROM ...
DELIMITER ... CSV HEADER statement naming the schema-qualified table and the
translated file path. -/
def copyStatement (schema tbl path : List Char) : List Char :=
  "COPY ".toList ++ schema ++ '.' :: tbl ++ " FROM ".toList ++ sqChar :: path
    ++ sqChar :: " DELIMITER ".toList ++ sqChar :: '|' :: sqChar :: " CSV HEADER;".toList

/-- Table-name derivation of `get_raw_gnaf_files`, applied to the lowercased
file name: strip one leading `prefix_`, then every `_psv`, then every `.psv`. -/
def gnafTableName (pfx lf : List Char) : List Char :=
  pyReplace ".psv".toList [] (pyReplace "_psv".toList [] (pyReplaceOnce (pfx ++ ['_']) [] lf))

/-- Path translation of `get_raw_gnaf_files`: substitute the directory of the
database server for that of the orchestrator, then fix separators when the server is
non-Windows (its local directory starts with `/`). -/
def gnafFilePath (netdir serverdir root fileName : List Char) : List Char :=
  let p := pyReplace netdir serverdir (pyJoin root fileName)
  if serverdir.take 1 = ['/'] then pyReplace [bslChar] ['/'] p else p

/-- Embedding of `get_raw_gnaf_files`: walk the source directory and emit one
COPY statement per file whose lowercased name starts with the prefix plus an underscore and ends
with `.psv`. -/
def get_raw_gnaf_files (netdir serverdir schema : List Char) (walk : List WalkEntry)
    (pfx0 : List Char) : List (List Char) :=
  let pfx := pyLower pfx0
  walk.flatMap fun w =>
    w.files.flatMap fun fileName =>
      if (pfx ++ ['_']).isPrefixOf (pyLower fileName) then
        if ".psv".toList.isSuffixOf (pyLower fileName) then
          [copyStatement schema (gnafTableName pfx (pyLower fileName))
            (gnafFilePath netdir serverdir w.root fileName)]
        else []
      else []

/-- The work list assembled by `populate_raw_gnaf`: the authority-code files
followed by the files of each state to load, in order. -/
def populate_sql_list (netdir serverdir schema : List Char) (walk : List WalkEntry)
    (states : List (List Char)) : List (List Char) :=
  get_raw_gnaf_files netdir serverdir schema walk "authority_code".toList
    ++ states.flatMap fun st => get_raw_gnaf_files netdir serverdir schema walk st

def ctStr : List Char := "CREATE TABLE ".toList

def cutStr : List Char := "CREATE UNLOGGED TABLE ".toList

def spOld : List Char := "SET search_path = public".toList

def pubStr : List Char := "public".toList

/-- The search-path substitution of `create_raw_gnaf_tables` (applied when the
raw GNAF schema is not `public`). -/
def searchPathStage (schema sql : List Char) : List Char :=
  if schema ≠ pubStr then pyReplace spOld ("SET search_path = ".toList ++ schema) sql else sql

/-- The full script rewriting of `create_raw_gnaf_tables`: search-path
substitution, then—only when unlogged tables were requested—the rewrite of
`CREATE TABLE ` into `CREATE UNLOGGED TABLE `. -/
def create_raw_gnaf_tables_sql (schema : List Char) (unlogged : Bool) (sql : List Char) :
    List Char :=
  let sql1 := searchPathStage schema sql
  if unlogged then pyReplace ctStr cutStr sql1 else sql1

def dashDash : List Char := ['-', '-']

/-- The statement filter of `index_raw_gnaf` and step 14 of
`create_reference_tables`: keep a line unless its first-two-character slice is
`--` or the empty slice. -/
def filter_sql_lines : List (List Char) → List (List Char)
  | [] => []
  | l :: ls =>
    if l.take 2 ≠ dashDash ∧ l.take 2 ≠ [] then l :: filter_sql_lines ls
    else filter_sql_lines ls

/-- One row of an authority table, already in the canonical
(code, name, description) shape that the column renames of the cleaner establish. -/
abbrev AuthRow := Option (List Char) × Option (List Char) × Option (List Char)

/-- An authority table: its name and its rows. -/
structure AuthTable where
  name : List Char
  rows : List AuthRow
deriving DecidableEq

def mbCatTable : List Char := "aus_mb_category_class_aut".toList

/-- The special case of the cleaner: `aus_mb_category_class_aut` has every
description set to NULL before deduplication. -/
def fix_descriptions (t : AuthTable) : AuthTable :=
  if t.name = mbCatTable then { t with rows := t.rows.map fun r => (r.1, r.2.1, none) }
  else t

/-- The dedup step of `clean_authority_files`: count rows, count distinct
(code, name, description) rows, and truncate-and-reload with the distinct rows
only when duplicates were found; the second component is the logged number of
duplicates removed. -/
def dedup_step (t : AuthTable) : AuthTable × Nat :=
  let oldCount := t.rows.length
  let distinctRows := t.rows.dedup
  let newCount := distinctRows.length
  if oldCount - newCount > 0 then ({ t with rows := distinctRows }, oldCount - newCount)
  else (t, 0)

/-- Whether `ALTER TABLE ... ADD CONSTRAINT ... PRIMARY KEY (code)` fails:
the code column still holds duplicate or NULL values. -/
def pk_create_fails (rows : List AuthRow) : Bool :=
  decide (¬ (rows.map fun r => r.1).Nodup ∨ none ∈ rows.map fun r => r.1)

/-- The per-table body of `clean_authority_files`: normalize descriptions,
dedup, and (when index creation was requested) attempt the primary key on
`code`; the Bool records a primary-key failure, which only bumps the error
counter. -/
def clean_one_table (createIdx : Bool) (t : AuthTable) : AuthTable × Nat × Bool :=
  let t1 := fix_descriptions t
  let d := dedup_step t1
  (d.1, d.2, createIdx && pk_create_fails d.1.rows)

/-- The table loop of `clean_authority_files`: every table is processed, and
primary-key failures are only counted. -/
def clean_loop (createIdx : Bool) : List AuthTable → List AuthTable × Nat
  | [] => ([], 0)
  | t :: ts =>
    let r := clean_one_table createIdx t
    let rest := clean_loop createIdx ts
    (r.1 :: rest.1, (if r.2.2 then 1 else 0) + rest.2)

/-- Embedding of `clean_authority_files`: process all tables, then call
`exit()` (third component) exactly when the error counter is positive. -/
def clean_authority_files (createIdx : Bool) (tables : List AuthTable) :
    List AuthTable × Nat × Bool :=
  let r := clean_loop createIdx tables
  (r.1, r.2, decide (r.2 > 0))

/-- A shapefile work item, as assembled by `load_raw_admin_boundaries`. -/
structure ShpItem where
  spatial : Bool
  filePath : List Char
  pgTable : List Char
  pgSchema : List Char
  deleteTable : Bool
deriving DecidableEq

def ausU : List Char := "aus_".toList

def shpExt : List Char := ".shp".toList

def dbfExt : List Char := ".dbf".toList

def shpDbfExt : List Char := "_shp.dbf".toList

def polyDbfExt : List Char := "_polygon_shp.dbf".toList

def pointDbfExt : List Char := "_point_shp.dbf".toList

def undShp : List Char := "_shp".toList

def townPoints : List Char := "town points".toList

def locDbfExt : List Char := "_locality_shp.dbf".toList

/-- Target-table derivation of `load_raw_admin_boundaries`, applied to the
lowercased file name: one leading state prefix becomes `aus_`, then `.dbf`, `.shp` and
`_shp` are stripped. -/
def shp_table_name (stL lf : List Char) : List Char :=
  pyReplace undShp [] (pyReplace shpExt [] (pyReplace dbfExt []
    (pyReplaceOnce (stL ++ ['_']) ausU lf)))

/-- The spatial-flag/file-path assignment of `load_raw_admin_boundaries`:
`.shp` files are spatial; `.dbf` files are attribute-only unless they are the
polygon/point sidecars; anything else is skipped. -/
def shp_file_entry (root fileName : List Char) : Option (Bool × List Char) :=
  let lf := pyLower fileName
  if shpExt.isSuffixOf lf then some (true, pyJoin root fileName)
  else if dbfExt.isSuffixOf lf ∧ ¬ polyDbfExt.isSuffixOf lf ∧ ¬ pointDbfExt.isSuffixOf lf then
    some (false, pyJoin root fileName)
  else none

/-- Accumulator of the shapefile scan: the tables already claimed, the
create-table work items and the append work items. -/
structure ShpAcc where
  tableList : List (List Char)
  createList : List ShpItem
  appendsList : List ShpItem
deriving DecidableEq

/-- Adding one surviving work item: the first item of a table goes to the
create list (claiming the table, delete flag set), later items of the same
table go to the append list. -/
def shp_add (acc : ShpAcc) (item : ShpItem) : ShpAcc :=
  if item.pgTable ∈ acc.tableList then { acc with appendsList := acc.appendsList ++ [item] }
  else { acc with tableList := acc.tableList ++ [item.pgTable],
                  createList := acc.createList ++ [item] }

/-- One candidate (lowercased state, walk root, file name) of the shapefile
scan of `load_raw_admin_boundaries`. -/
def shp_step (schemaName : List Char) (acc : ShpAcc)
    (cand : List Char × List Char × List Char) : ShpAcc :=
  let stL := cand.1
  let root := cand.2.1
  let fileName := cand.2.2
  let lf := pyLower fileName
  if (stL ++ ['_']).isPrefixOf lf then
    if shpExt.isSuffixOf lf || shpDbfExt.isSuffixOf lf then
      match shp_file_entry root fileName with
      | none => acc
      | some sp =>
        let tbl := shp_table_name stL lf
        let item : ShpItem :=
          { spatial := sp.1, filePath := sp.2, pgTable := tbl, pgSchema := schemaName,
            deleteTable := decide (tbl ∉ acc.tableList) }
        if ¬ hasInfixL townPoints (pyLower sp.2) then shp_add acc item
        else if ¬ locDbfExt.isSuffixOf (pyLower sp.2) then shp_add acc item
        else acc
    else acc
  else acc

/-- The full shapefile scan: for every state (lowercased), walk the admin
boundary directory and classify every file, yielding the create list and the
append list. -/
def classify_shapefiles (schemaName : List Char) (states : List (List Char))
    (walk : List WalkEntry) : List ShpItem × List ShpItem :=
  let cands := (states.map pyLower).flatMap fun st =>
    walk.flatMap fun w => w.files.map fun f => (st, w.root, f)
  let acc := cands.foldl (shp_step schemaName) ⟨[], [], []⟩
  (acc.createList, acc.appendsList)

/-- One scheduling step of the shapefile load: a parallel multi-process batch
or a single sequential import. -/
inductive ExecStep where
  | parallelBatch (items : List ShpItem)
  | seqImport (item : ShpItem)
deriving DecidableEq

/-- Modelled from the spec: `geoscape.multiprocess_shapefile_load` (a module
that is not under src/) runs its argument list as one parallel multi-process
batch, while `load_raw_admin_boundaries` then loops over the append list and
calls `geoscape.import_shapefile_to_postgres` one item at a time, so the
execution schedule is one parallel batch of the whole create list followed by
one sequential import per append item, in list order; nothing runs when the
create list is empty (the fatal zero-files branch). -/
def load_raw_admin_schedule (createL appendL : List ShpItem) : List ExecStep :=
  if createL.length = 0 then []
  else ExecStep.parallelBatch createL :: appendL.map ExecStep.seqImport

/-- Embedding of the QA comparison insert of `create_qa_tables`: inner join of
the per-table counts of this release with those of the previous one on table name,
emitting (table_name, new - old, new, old). -/
def qa_comparison (newCounts oldCounts : List (List Char × Int)) :
    List (List Char × Int × Int × Int) :=
  newCounts.flatMap fun n =>
    (oldCounts.filter fun o => decide (o.1 = n.1)).map fun o => (n.1, n.2 - o.2, n.2, o.2)

def groupByStr : List Char := "GROUP BY ".toList

/-- The per-state predicate splice of step 13 of `create_reference_tables`:
the text GROUP BY is replaced by a per-state WHERE predicate followed by
GROUP BY. -/
def where_state_clause (st : List Char) : List Char :=
  "WHERE state = ".toList ++ sqChar :: st ++ sqChar :: ' ' :: groupByStr

/-- The statement list of step 13 of `create_reference_tables`: one rewritten
copy of the derived-postcode-boundaries script per entry of
`settings.states_to_load`. -/
def derived_postcode_statements (sql : List Char) (states : List (List Char)) :
    List (List Char) :=
  states.map fun st => pyReplace groupByStr (where_state_clause st) sql

def authCodeStr : List Char := "authority_code".toList

/-- The run configuration seen by `main`: database health, directories,
schemas, walks of the two source trees, the states to load, the authority
tables of the two schemas, the derived-postcode script and the option flags. -/
structure Env where
  postgisOk : Bool
  netdir : List Char
  serverdir : List Char
  rawGnafSchema : List Char
  rawAdminSchema : List Char
  gnafWalk : List WalkEntry
  admWalk : List WalkEntry
  statesToLoad : List (List Char)
  gnafAuthTables : List AuthTable
  adminAuthTables : List AuthTable
  postcodeSql : List Char
  primaryForeignKeys : Bool
  noBoundaryTag : Bool
deriving DecidableEq

/-- How a run of the loader ends: `main` returns True, `main` returns False,
or the process is killed by `exit()` inside `clean_authority_files`. -/
inductive Outcome where
  | success
  | failure
  | exited
deriving DecidableEq

/-- Observable trace of a run: the (possibly extended) states list, the stages
that executed in order, the fatal log lines, the COPY statements executed by
part 2, the shapefile execution schedule of part 3 and the per-state
derived-postcode statements of part 4. -/
structure RunState where
  states : List (List Char)
  stages : List (List Char)
  fatals : List (List Char)
  copies : List (List Char)
  shpSchedule : List ExecStep
  postcodeStmts : List (List Char)
deriving DecidableEq

def stgSchemas : List Char := "part1_create_schemas".toList

def stgRawGnaf : List Char := "part2_raw_gnaf_load".toList

def stgPkFk : List Char := "step6_primary_foreign_keys".toList

def stgAdminBdys : List Char := "part3_admin_bdys_load".toList

def stgPrepBdys : List Char := "prep_admin_bdys".toList

def stgBdysAnalysis : List Char := "create_admin_bdys_for_analysis".toList

def stgRefTables : List Char := "part4_reference_tables".toList

def stgBdyTag : List Char := "part5_boundary_tag".toList

def stgQa : List Char := "part6_qa".toList

def fatalNoGnaf : List Char := "No raw GNAF PSV files found".toList

def fatalNoAdmin : List Char := "No admin boundary files found".toList

/-- Embedding of `main` (plus the `exit()` reachable from
`clean_authority_files`): the fixed stage sequence of the loader.  Returning
False happens only at the PostGIS extension check; a zero-file discovery in
part 2 or part 3 logs a fatal line and skips that load but continues; the
admin-boundary cleaner can kill the run via `exit()` after its table loop. -/
def mainRun (env : Env) : Outcome × RunState :=
  let st0 : RunState :=
    { states := env.statesToLoad, stages := [], fatals := [], copies := [],
      shpSchedule := [], postcodeStmts := [] }
  if env.postgisOk = true then
    let st1 := { st0 with stages := st0.stages ++ [stgSchemas] }
    let sqlList := populate_sql_list env.netdir env.serverdir env.rawGnafSchema
      env.gnafWalk env.statesToLoad
    let st2 :=
      if sqlList.length = 0 then
        { st1 with stages := st1.stages ++ [stgRawGnaf], fatals := st1.fatals ++ [fatalNoGnaf] }
      else
        { st1 with stages := st1.stages ++ [stgRawGnaf], copies := sqlList }
    let st2b :=
      if env.primaryForeignKeys then { st2 with stages := st2.stages ++ [stgPkFk] } else st2
    let gnafClean := clean_authority_files false env.gnafAuthTables
    if gnafClean.2.2 then (Outcome.exited, st2b)
    else
      let states3 := st2b.states ++ [authCodeStr]
      let cls := classify_shapefiles env.rawAdminSchema states3 env.admWalk
      let st3a := { st2b with states := states3, stages := st2b.stages ++ [stgAdminBdys] }
      let st3 :=
        if cls.1.length = 0 then { st3a with fatals := st3a.fatals ++ [fatalNoAdmin] }
        else { st3a with shpSchedule := load_raw_admin_schedule cls.1 cls.2 }
      let adminClean := clean_authority_files true env.adminAuthTables
      if adminClean.2.2 then (Outcome.exited, st3)
      else
        let st4 := { st3 with stages := st3.stages ++ [stgPrepBdys, stgBdysAnalysis] }
        let st5a := { st4 with stages := st4.stages ++ [stgRefTables] }
        let st5 := { st5a with postcodeStmts := derived_postcode_statements env.postcodeSql st4.states }
        let st6 :=
          if env.noBoundaryTag then st5 else { st5 with stages := st5.stages ++ [stgBdyTag] }
        let st7 := { st6 with stages := st6.stages ++ [stgQa] }
        (Outcome.success, st7)
  else (Outcome.failure, st0)

/-- Invariant of the shapefile scan: the claimed-table list is exactly the
tables of the create list, create-list tables are pairwise distinct, append items
target an already-claimed table with the delete flag cleared, and create items
carry the delete flag. -/
def shpInv (a : ShpAcc) : Prop :=
  a.tableList = a.createList.map (fun i => i.pgTable)
    ∧ a.tableList.Nodup
    ∧ (∀ x ∈ a.appendsList, x.pgTable ∈ a.tableList ∧ x.deleteTable = false)
    ∧ (∀ x ∈ a.createList, x.deleteTable = true)

/-- The default list of Australian states the loader is configured with
(the `settings` module holding it is external configuration). -/
def ausStates : List (List Char) :=
  ["ACT".toList, "NSW".toList, "NT".toList, "OT".toList, "QLD".toList, "SA".toList,
   "TAS".toList, "VIC".toList, "WA".toList]

/-- Scenario input for claim C7: the three bulk-load files of end-to-end
scenario 1. -/
def c7Files : List (List Char) :=
  ["authority_code_x.psv".toList, "nsw_street.psv".toList, "vic_street.psv".toList]

/-- Scenario input for claim C3: an authority table with rows
(1, A, NULL), (1, A, NULL), (2, B, d) — one duplicated row. -/
def c3SampleTable : AuthTable :=
  { name := "street_type_aut".toList,
    rows := [(some ['1'], some ['A'], none), (some ['1'], some ['A'], none),
             (some ['2'], some ['B'], some ['d'])] }

/-- Scenario input for the primary-key failure of the cleaner: two distinct rows
sharing the code 1, which dedup cannot remove. -/
def dupCodeTable : AuthTable :=
  { name := "locality_class_aut".toList,
    rows := [(some ['1'], some ['A'], none), (some ['1'], some ['B'], none)] }

/-- Scenario admin-boundary walk: two locality shapefiles for two states that
map to the same target table, so the scan yields one create and one append. -/
def sampleAdmWalk : List WalkEntry :=
  [{ root := "/data/admin".toList,
     files := ["act_locality_shp.shp".toList, "nsw_locality_shp.shp".toList] }]

/-- Scenario environment: healthy database, an empty GNAF source tree and an
empty admin-boundary source tree (both discoveries find zero files). -/
def envZeroBoth : Env :=
  { postgisOk := true, netdir := "/data/gnaf".toList, serverdir := "/srv/gnaf".toList,
    rawGnafSchema := "raw_gnaf".toList, rawAdminSchema := "raw_admin_bdys".toList,
    gnafWalk := [], admWalk := [], statesToLoad := ["ACT".toList, "NSW".toList],
    gnafAuthTables := [], adminAuthTables := [],
    postcodeSql := "SELECT state FROM x GROUP BY state".toList,
    primaryForeignKeys := false, noBoundaryTag := false }

/-- Scenario environment: healthy database but an admin-boundary authority
table that keeps duplicate codes after dedup, so the cleaner calls `exit()`. -/
def envDupAuth : Env :=
  { envZeroBoth with admWalk := sampleAdmWalk, adminAuthTables := [dupCodeTable] }

theorem pyReplaceF_congr (p r : List Char) :
    ∀ (n m : Nat) (s : List Char), s.length ≤ n → s.length ≤ m →
      pyReplaceF p r n s = pyReplaceF p r m s := by
  intro n
  induction n with
  | zero =>
    intro m s hn _
    have hs : s = [] := List.eq_nil_of_length_eq_zero (Nat.le_zero.mp hn)
    subst hs
    cases m <;> rfl
  | succ n ih =>
    intro m s hn hm
    cases s with
    | nil => cases m <;> rfl
    | cons c s' =>
      cases m with
      | zero => simp at hm
      | succ m' =>
        simp only [List.length_cons] at hn hm
        simp only [pyReplaceF]
        by_cases h : p ≠ [] ∧ p.isPrefixOf (c :: s') = true
        · rw [if_pos h, if_pos h]
          have h1 : (s'.drop (p.length - 1)).length ≤ n := by
            simp only [List.length_drop]; omega
          have h2 : (s'.drop (p.length - 1)).length ≤ m' := by
            simp only [List.length_drop]; omega
          rw [ih m' (s'.drop (p.length - 1)) h1 h2]
        · rw [if_neg h, if_neg h]
          rw [ih m' s' (by omega) (by omega)]

theorem pyReplace_nil (p r : List Char) : pyReplace p r [] = [] := rfl

theorem pyReplace_cons_pos {p : List Char} (r : List Char) {c : Char} {s : List Char}
    (h1 : p ≠ []) (h2 : p.isPrefixOf (c :: s) = true) :
    pyReplace p r (c :: s) = r ++ pyReplace p r (s.drop (p.length - 1)) := by
  show pyReplaceF p r (c :: s).length (c :: s) = _
  simp only [List.length_cons, pyReplaceF]
  rw [if_pos ⟨h1, h2⟩]
  congr 1
  exact pyReplaceF_congr p r s.length (s.drop (p.length - 1)).length (s.drop (p.length - 1))
    (by simp only [List.length_drop]; omega) le_rfl

theorem pyReplace_cons_neg {p : List Char} (r : List Char) {c : Char} {s : List Char}
    (h : ¬ (p ≠ [] ∧ p.isPrefixOf (c :: s) = true)) :
    pyReplace p r (c :: s) = c :: pyReplace p r s := by
  show pyReplaceF p r (c :: s).length (c :: s) = _
  simp only [List.length_cons, pyReplaceF]
  rw [if_neg h]
  rfl

theorem hasInfixL_iff (p : List Char) : ∀ s, (hasInfixL p s = true ↔ ∃ i, p <+: s.drop i) := by
  intro s
  induction s with
  | nil =>
    simp only [hasInfixL, List.isEmpty_iff, List.drop_nil]
    constructor
    · rintro rfl; exact ⟨0, List.nil_prefix⟩
    · rintro ⟨i, h⟩; exact List.prefix_nil.mp h
  | cons c s' ih =>
    simp only [hasInfixL, Bool.or_eq_true]
    constructor
    · rintro (h | h)
      · exact ⟨0, by simpa using h⟩
      · obtain ⟨i, hi⟩ := ih.mp h
        exact ⟨i + 1, by simpa using hi⟩
    · rintro ⟨i, hi⟩
      cases i with
      | zero => left; simpa using hi
      | succ j => right; exact ih.mpr ⟨j, by simpa using hi⟩

theorem prefix_append_split {p a b : List Char} (h : p <+: a ++ b) :
    p <+: a ∨ (a <+: p ∧ p.drop a.length <+: b) := by
  obtain ⟨t, ht⟩ := h
  rcases List.append_eq_append_iff.mp ht with ⟨a', ha1, _⟩ | ⟨c', hc1, hc2⟩
  · exact Or.inl ⟨a', ha1.symm⟩
  · refine Or.inr ⟨⟨c', hc1.symm⟩, ?_⟩
    rw [hc1, List.drop_left]
    exact ⟨t, hc2.symm⟩

theorem pyReplace_eq_self (p r : List Char) :
    ∀ s, hasInfixL p s = false → pyReplace p r s = s := by
  intro s
  induction s with
  | nil => intro _; rfl
  | cons c s' ih =>
    intro h
    simp only [hasInfixL, Bool.or_eq_false_iff] at h
    rw [pyReplace_cons_neg r (by rintro ⟨_, hp2⟩; rw [h.1] at hp2; exact Bool.false_ne_true hp2)]
    rw [ih h.2]

theorem pyReplace_append_self {p : List Char} (r t : List Char) (hp : p ≠ []) :
    pyReplace p r (p ++ t) = r ++ pyReplace p r t := by
  cases p with
  | nil => exact absurd rfl hp
  | cons pc p' =>
    have hpre : (pc :: p').isPrefixOf (pc :: (p' ++ t)) = true := by
      simp only [List.isPrefixOf_iff_prefix]
      exact List.prefix_append _ _
    rw [show (pc :: p') ++ t = pc :: (p' ++ t) from rfl]
    rw [pyReplace_cons_pos r hp hpre]
    congr 2
    have : (pc :: p').length - 1 = p'.length := by simp
    rw [this, List.drop_left]

theorem pyReplace_drop_prefix_rev (p r : List Char)
    (hlen : p.length ≤ r.length + 1)
    (hd : ∀ k, k < p.length → 0 < k → ¬ (p.drop k <+: r)) :
    ∀ s k, 0 < k → k < p.length → p.drop k <+: pyReplace p r s → p.drop k <+: s := by
  intro s
  induction s with
  | nil =>
    intro k _ _ h
    rw [pyReplace_nil] at h
    exact h
  | cons c s' ih =>
    intro k hk0 hkp h
    by_cases hc : p ≠ [] ∧ p.isPrefixOf (c :: s') = true
    · rw [pyReplace_cons_pos r hc.1 hc.2] at h
      rcases prefix_append_split h with h1 | ⟨h2, _⟩
      · exact absurd h1 (hd k hkp hk0)
      · have hrk : r.length ≤ (p.drop k).length := h2.length_le
        have hlen2 : (p.drop k).length ≤ r.length := by
          simp only [List.length_drop]; omega
        have heq : r = p.drop k := h2.sublist.eq_of_length (by omega)
        exact absurd (heq ▸ List.prefix_rfl) (hd k hkp hk0)
    · rw [pyReplace_cons_neg r hc] at h
      have hkl : k < p.length := hkp
      rw [List.drop_eq_getElem_cons hkl] at h ⊢
      rw [List.cons_prefix_cons] at h ⊢
      refine ⟨h.1, ?_⟩
      by_cases hk1 : k + 1 < p.length
      · exact ih (k + 1) (by omega) hk1 h.2
      · have : p.drop (k + 1) = [] := by
          rw [List.drop_eq_nil_iff]; omega
        rw [this]
        exact List.nil_prefix

theorem pyReplace_no_occurrence (p r : List Char)
    (hp2 : 2 ≤ p.length)
    (hlen : p.length ≤ r.length + 1)
    (ha : hasInfixL p r = false)
    (hb : ∀ i, i < r.length → r.length - i < p.length → ¬ (r.drop i <+: p))
    (hd : ∀ k, k < p.length → 0 < k → ¬ (p.drop k <+: r)) :
    ∀ s, hasInfixL p (pyReplace p r s) = false := by
  have hpne : p ≠ [] := by
    intro h; rw [h] at hp2; simp at hp2
  suffices hmain : ∀ n s, s.length ≤ n → hasInfixL p (pyReplace p r s) = false by
    intro s; exact hmain s.length s le_rfl
  intro n
  induction n with
  | zero =>
    intro s hs
    have hnil : s = [] := List.eq_nil_of_length_eq_zero (Nat.le_zero.mp hs)
    subst hnil
    rw [pyReplace_nil]
    cases p with
    | nil => exact absurd rfl hpne
    | cons pc pt => rfl
  | succ n ih =>
    intro s hs
    cases s with
    | nil =>
      rw [pyReplace_nil]
      cases p with
      | nil => exact absurd rfl hpne
      | cons pc pt => rfl
    | cons c s' =>
      simp only [List.length_cons] at hs
      by_cases hc : p ≠ [] ∧ p.isPrefixOf (c :: s') = true
      · rw [pyReplace_cons_pos r hc.1 hc.2]
        by_contra hcon
        rw [Bool.not_eq_false] at hcon
        obtain ⟨i, hi⟩ := (hasInfixL_iff p _).mp hcon
        have hRlen : (s'.drop (p.length - 1)).length ≤ n := by
          simp only [List.length_drop]; omega
        have hRfalse : hasInfixL p (pyReplace p r (s'.drop (p.length - 1))) = false :=
          ih (s'.drop (p.length - 1)) hRlen
        by_cases hir : i ≤ r.length
        · rw [List.drop_append_of_le_length hir] at hi
          rcases prefix_append_split hi with h1 | ⟨h2, h3⟩
          · have : hasInfixL p r = true := (hasInfixL_iff p r).mpr ⟨i, h1⟩
            rw [ha] at this
            exact Bool.false_ne_true this
          · by_cases hlt : i < r.length
            · by_cases hsm : r.length - i < p.length
              · exact absurd h2 (hb i hlt hsm)
              · have h4 : (r.drop i).length ≤ p.length := h2.length_le
                simp only [List.length_drop] at h4
                have h5 : r.drop i = p := by
                  apply h2.sublist.eq_of_length
                  simp only [List.length_drop]
                  omega
                have : hasInfixL p r = true := (hasInfixL_iff p r).mpr ⟨i, h5 ▸ List.prefix_rfl⟩
                rw [ha] at this
                exact Bool.false_ne_true this
            · have hieq : i = r.length := by omega
              have hnil2 : r.drop i = [] := by rw [hieq, List.drop_length]
              rw [hnil2] at h3
              simp only [List.length_nil, List.drop_zero] at h3
              have : hasInfixL p (pyReplace p r (s'.drop (p.length - 1))) = true :=
                (hasInfixL_iff p _).mpr ⟨0, by simpa using h3⟩
              rw [hRfalse] at this
              exact Bool.false_ne_true this
        · have hsplit : (r ++ pyReplace p r (s'.drop (p.length - 1))).drop i
              = (pyReplace p r (s'.drop (p.length - 1))).drop (i - r.length) := by
            have h9 : r.length + (i - r.length) = i := by omega
            calc (r ++ pyReplace p r (s'.drop (p.length - 1))).drop i
                = (r ++ pyReplace p r (s'.drop (p.length - 1))).drop
                    (r.length + (i - r.length)) := by rw [h9]
              _ = (pyReplace p r (s'.drop (p.length - 1))).drop (i - r.length) :=
                  List.drop_append _
          rw [hsplit] at hi
          have : hasInfixL p (pyReplace p r (s'.drop (p.length - 1))) = true :=
            (hasInfixL_iff p _).mpr ⟨i - r.length, hi⟩
          rw [hRfalse] at this
          exact Bool.false_ne_true this
      · rw [pyReplace_cons_neg r hc]
        have hcpre : p.isPrefixOf (c :: s') = false := by
          by_contra hx
          rw [Bool.not_eq_false] at hx
          exact hc ⟨hpne, hx⟩
        simp only [hasInfixL, Bool.or_eq_false_iff]
        refine ⟨?_, ih s' (by omega)⟩
        by_contra hx
        rw [Bool.not_eq_false, List.isPrefixOf_iff_prefix] at hx
        cases p with
        | nil => exact hpne rfl
        | cons pc pt =>
          rw [List.cons_prefix_cons] at hx
          have hpt : pt <+: pyReplace (pc :: pt) r s' := hx.2
          have hdrop1 : (pc :: pt).drop 1 = pt := rfl
          have hptlt : (1 : Nat) < (pc :: pt).length := by
            simp only [List.length_cons] at hp2 ⊢
            omega
          have := pyReplace_drop_prefix_rev (pc :: pt) r hlen hd s' 1 (by omega) hptlt
            (by rw [hdrop1]; exact hpt)
          rw [hdrop1] at this
          have hps : (pc :: pt).isPrefixOf (c :: s') = true := by
            rw [List.isPrefixOf_iff_prefix, List.cons_prefix_cons]
            exact ⟨hx.1, this⟩
          rw [hcpre] at hps
          exact Bool.false_ne_true hps


/-- C6: with the unlogged-tables flag set, `create_raw_gnaf_tables` executes
the loaded script with every occurrence of `CREATE TABLE ` rewritten to
`CREATE UNLOGGED TABLE ` (no occurrence of `CREATE TABLE ` survives the
rewrite); with the flag unset the script is executed with its CREATE TABLE
statements unchanged (only the search-path substitution is applied). -/
theorem c6_unlogged_rewrite (schema sql : List Char) :
    (create_raw_gnaf_tables_sql schema true sql
        = pyReplace ctStr cutStr (searchPathStage schema sql)
      ∧ hasInfixL ctStr (create_raw_gnaf_tables_sql schema true sql) = false)
    ∧ create_raw_gnaf_tables_sql schema false sql = searchPathStage schema sql := by
  refine ⟨⟨rfl, ?_⟩, rfl⟩
  show hasInfixL ctStr (pyReplace ctStr cutStr (searchPathStage schema sql)) = false
  exact pyReplace_no_occurrence ctStr cutStr (by decide) (by decide) (by decide)
    (by decide) (by decide) (searchPathStage schema sql)

theorem take_two_filter_iff (l : List Char) :
    (l.take 2 ≠ dashDash ∧ l.take 2 ≠ []) ↔ (¬ (dashDash <+: l) ∧ l ≠ []) := by
  match l with
  | [] => simp [dashDash]
  | [a] =>
    constructor
    · intro _
      refine ⟨?_, by simp⟩
      intro h
      have := h.length_le
      simp [dashDash] at this
    · intro _
      constructor
      · intro h
        have : ([a] : List Char).length = 1 := rfl
        rw [show ([a] : List Char).take 2 = [a] from rfl] at h
        have h2 : (dashDash : List Char).length = 2 := rfl
        rw [← h] at h2
        simp at h2
      · intro h
        rw [show ([a] : List Char).take 2 = [a] from rfl] at h
        simp at h
  | a :: b :: t =>
    have htake : (a :: b :: t).take 2 = [a, b] := rfl
    rw [htake]
    constructor
    · rintro ⟨h1, _⟩
      refine ⟨?_, by simp⟩
      intro h
      rw [dashDash] at h
      rw [List.cons_prefix_cons] at h
      obtain ⟨rfl, h⟩ := h
      rw [List.cons_prefix_cons] at h
      obtain ⟨rfl, _⟩ := h
      exact h1 rfl
    · rintro ⟨h1, _⟩
      refine ⟨?_, by simp⟩
      intro h
      apply h1
      rw [show (dashDash : List Char) = ['-', '-'] from rfl] at h ⊢
      injection h with ha hb
      injection hb with hb _
      subst ha
      subst hb
      rw [List.cons_prefix_cons]
      refine ⟨rfl, ?_⟩
      rw [List.cons_prefix_cons]
      exact ⟨rfl, List.nil_prefix⟩

/-- C8 counterexample: the one-character line `x` (shorter than 2 characters)
is NOT excluded by the statement filter — the Python slice `"x"[0:2]` equals
`"x"`, not the empty string, so the line is kept. -/
theorem c8_short_line_counterexample :
    filter_sql_lines [['x']] = [['x']] ∧ ([('x' : Char)]).length < 2 := by
  constructor
  · rfl
  · decide

/-- C8 (amended): the statement filter excludes exactly the lines beginning
with the comment marker `--` and the empty lines; every other line — including
single-character lines — is kept. -/
theorem c8_line_filter_characterization (lines : List (List Char)) :
    filter_sql_lines lines
      = lines.filter fun l => decide (¬ (dashDash <+: l) ∧ l ≠ []) := by
  induction lines with
  | nil => rfl
  | cons l ls ih =>
    simp only [filter_sql_lines, List.filter_cons]
    by_cases h : l.take 2 ≠ dashDash ∧ l.take 2 ≠ []
    · rw [if_pos h]
      have hkeep : decide (¬ (dashDash <+: l) ∧ l ≠ []) = true := by
        rw [decide_eq_true_eq]
        exact (take_two_filter_iff l).mp h
      simp [hkeep, ih]
    · rw [if_neg h]
      have hdrop : decide (¬ (dashDash <+: l) ∧ l ≠ []) = false := by
        rw [decide_eq_false_iff_not]
        intro hx
        exact h ((take_two_filter_iff l).mpr hx)
      simp [hdrop, ih]

theorem dedup_step_eq (t : AuthTable) :
    dedup_step t
      = if t.rows.dedup.length < t.rows.length
        then ({ t with rows := t.rows.dedup }, t.rows.length - t.rows.dedup.length)
        else (t, 0) := by
  have hle : t.rows.dedup.length ≤ t.rows.length := (List.dedup_sublist t.rows).length_le
  by_cases h : t.rows.dedup.length < t.rows.length
  · rw [if_pos h]
    unfold dedup_step
    rw [if_pos (by omega)]
  · rw [if_neg h]
    unfold dedup_step
    rw [if_neg (by omega)]

theorem dedup_step_rows_nodup (t : AuthTable) : (dedup_step t).1.rows.Nodup := by
  rw [dedup_step_eq]
  by_cases h : t.rows.dedup.length < t.rows.length
  · rw [if_pos h]
    exact List.nodup_dedup t.rows
  · rw [if_neg h]
    have hle : t.rows.dedup.length ≤ t.rows.length := (List.dedup_sublist t.rows).length_le
    have heq : t.rows.dedup = t.rows := (List.dedup_sublist t.rows).eq_of_length (by omega)
    have := List.nodup_dedup t.rows
    rw [heq] at this
    exact this

theorem dedup_step_mem {t : AuthTable} {x : AuthRow} (hx : x ∈ (dedup_step t).1.rows) :
    x ∈ t.rows := by
  rw [dedup_step_eq] at hx
  by_cases h : t.rows.dedup.length < t.rows.length
  · rw [if_pos h] at hx
    exact (List.dedup_sublist t.rows).mem hx
  · rw [if_neg h] at hx
    exact hx

theorem dedup_step_name (t : AuthTable) : (dedup_step t).1.name = t.name := by
  rw [dedup_step_eq]
  by_cases h : t.rows.dedup.length < t.rows.length
  · rw [if_pos h]
  · rw [if_neg h]

theorem dedup_step_of_nodup {t : AuthTable} (h : t.rows.Nodup) : dedup_step t = (t, 0) := by
  rw [dedup_step_eq]
  rw [List.dedup_eq_self.mpr h]
  simp

theorem fix_descriptions_of_dedup (t : AuthTable) :
    fix_descriptions (dedup_step (fix_descriptions t)).1 = (dedup_step (fix_descriptions t)).1 := by
  unfold fix_descriptions
  by_cases h : t.name = mbCatTable
  · rw [if_pos h]
    have hname : (dedup_step { t with rows := t.rows.map fun r => (r.1, r.2.1, none) }).1.name
        = t.name := dedup_step_name _
    rw [if_pos (by rw [hname]; exact h)]
    have hrows : ∀ x ∈ (dedup_step { t with rows := t.rows.map fun r => (r.1, r.2.1, none) }).1.rows,
        (fun r : AuthRow => (r.1, r.2.1, (none : Option (List Char)))) x = x := by
      intro x hx
      have := dedup_step_mem hx
      simp only [List.mem_map] at this
      obtain ⟨y, _, hy⟩ := this
      rw [← hy]
    cases hd : (dedup_step { t with rows := t.rows.map fun r => (r.1, r.2.1, none) }).1 with
    | mk nm rw2 =>
      congr 1
      rw [hd] at hrows
      simp only at hrows
      exact List.map_congr_left hrows |>.trans (List.map_id rw2)
  · rw [if_neg h]
    have hname : (dedup_step t).1.name = t.name := dedup_step_name _
    rw [if_neg (by rw [hname]; exact h)]

/-- C3: for every authority table, the cleanup truncates and reloads with only
the distinct (code, name, description) rows exactly when the distinct count is
strictly below the original row count (the logged removal count being the
difference); afterwards the row count equals the distinct count, and a second
cleanup run on the resulting table removes no further rows. -/
theorem c3_dedup_exact_and_idempotent (t : AuthTable) :
    (let t1 := fix_descriptions t
     let d := dedup_step t1
     ((t1.rows.dedup.length < t1.rows.length →
         d.1.rows = t1.rows.dedup ∧ d.2 = t1.rows.length - t1.rows.dedup.length ∧ 0 < d.2)
      ∧ (¬ t1.rows.dedup.length < t1.rows.length → d.1 = t1 ∧ d.2 = 0)
      ∧ d.1.rows.dedup.length = d.1.rows.length
      ∧ dedup_step (fix_descriptions d.1) = (d.1, 0))) := by
  refine ⟨?_, ?_, ?_, ?_⟩
  · intro h
    rw [dedup_step_eq, if_pos h]
    refine ⟨rfl, rfl, by omega⟩
  · intro h
    rw [dedup_step_eq, if_neg h]
    exact ⟨rfl, rfl⟩
  · have := dedup_step_rows_nodup (fix_descriptions t)
    rw [List.dedup_eq_self.mpr this]
  · rw [fix_descriptions_of_dedup t]
    exact dedup_step_of_nodup (dedup_step_rows_nodup (fix_descriptions t))

theorem filter_name_nil {old : List (List Char × Int)} {t : List Char}
    (h : t ∉ old.map Prod.fst) :
    old.filter (fun o => decide (o.1 = t)) = [] := by
  induction old with
  | nil => rfl
  | cons a rest ih =>
    simp only [List.map_cons, List.mem_cons] at h
    push_neg at h
    rw [List.filter_cons, if_neg (by simp [h.1.symm])]
    exact ih h.2

theorem filter_name_singleton {old : List (List Char × Int)} {t : List Char} {co : Int}
    (hnd : (old.map Prod.fst).Nodup) (ho : (t, co) ∈ old) :
    old.filter (fun o => decide (o.1 = t)) = [(t, co)] := by
  induction old with
  | nil => simp at ho
  | cons a rest ih =>
    simp only [List.map_cons, List.nodup_cons] at hnd
    rw [List.mem_cons] at ho
    rcases ho with ho | ho
    · subst ho
      rw [List.filter_cons, if_pos (by simp)]
      rw [filter_name_nil hnd.1]
    · have htm : t ∈ rest.map Prod.fst := List.mem_map_of_mem Prod.fst ho
      have hne : a.1 ≠ t := by
        intro h
        rw [h] at hnd
        exact hnd.1 htm
      rw [List.filter_cons, if_neg (by simp [hne])]
      exact ih hnd.2 ho

theorem qa_row_name {newCounts oldCounts : List (List Char × Int)}
    {row : List Char × Int × Int × Int} (h : row ∈ qa_comparison newCounts oldCounts) :
    row.1 ∈ newCounts.map Prod.fst := by
  unfold qa_comparison at h
  rw [List.mem_flatMap] at h
  obtain ⟨n, hn, hrow⟩ := h
  rw [List.mem_map] at hrow
  obtain ⟨o, _, ho⟩ := hrow
  rw [← ho]
  exact List.mem_map_of_mem Prod.fst hn

/-- C5: for every table present in both this release and the previous
release QA counts (table names being unique on each side), the QA comparator
produces exactly one comparison row for that table, namely
(table, new - old, new, old). -/
theorem c5_qa_comparison_row (newCounts oldCounts : List (List Char × Int))
    (hnew : (newCounts.map Prod.fst).Nodup) (hold : (oldCounts.map Prod.fst).Nodup)
    (t : List Char) (cn co : Int)
    (hn : (t, cn) ∈ newCounts) (ho : (t, co) ∈ oldCounts) :
    (qa_comparison newCounts oldCounts).filter (fun row => decide (row.1 = t))
      = [(t, cn - co, cn, co)] := by
  induction newCounts with
  | nil => simp at hn
  | cons a rest ih =>
    simp only [List.map_cons, List.nodup_cons] at hnew
    have hsplit : qa_comparison (a :: rest) oldCounts
        = ((oldCounts.filter fun o => decide (o.1 = a.1)).map
            fun o => (a.1, a.2 - o.2, a.2, o.2)) ++ qa_comparison rest oldCounts := by
      unfold qa_comparison
      rw [List.flatMap_cons]
    rw [hsplit, List.filter_append]
    rw [List.mem_cons] at hn
    rcases hn with hn | hn
    · subst hn
      dsimp only at hsplit hnew ⊢
      have hrest : (qa_comparison rest oldCounts).filter (fun row => decide (row.1 = t)) = [] := by
        rw [List.filter_eq_nil_iff]
        intro row hrow
        have hmemn := qa_row_name hrow
        simp only [decide_eq_true_eq]
        intro hrt
        rw [hrt] at hmemn
        exact hnew.1 hmemn
      rw [filter_name_singleton hold ho, hrest]
      simp
    · have hne : a.1 ≠ t := by
        intro h
        apply hnew.1
        rw [h]
        exact List.mem_map_of_mem Prod.fst hn
      have hhead : ((oldCounts.filter fun o => decide (o.1 = a.1)).map
          fun o => (a.1, a.2 - o.2, a.2, o.2)).filter (fun row => decide (row.1 = t)) = [] := by
        rw [List.filter_eq_nil_iff]
        intro row hrow
        rw [List.mem_map] at hrow
        obtain ⟨o, _, hrow⟩ := hrow
        simp only [decide_eq_true_eq]
        intro hrt
        rw [← hrow] at hrt
        exact hne hrt
      rw [hhead, List.nil_append]
      exact ih hnew.2 hn

/-- C5 witness: new count 100 and old count 90 on table t1 produce the single
comparison row (t1, 10, 100, 90). -/
theorem c5_qa_comparison_row_witness :
    (qa_comparison [("t1".toList, (100 : Int))] [("t1".toList, (90 : Int))]).filter
        (fun row => decide (row.1 = "t1".toList))
      = [("t1".toList, (10 : Int), (100 : Int), (90 : Int))] := by
  have h := c5_qa_comparison_row [("t1".toList, (100 : Int))] [("t1".toList, (90 : Int))]
    (by decide) (by decide) "t1".toList 100 90 (by decide) (by decide)
  rw [h]
  norm_num

theorem shp_add_inv {acc : ShpAcc} {item : ShpItem}
    (h : shpInv acc) (hdel : item.deleteTable = decide (item.pgTable ∉ acc.tableList)) :
    shpInv (shp_add acc item) := by
  obtain ⟨h1, h2, h3, h4⟩ := h
  unfold shp_add
  by_cases hm : item.pgTable ∈ acc.tableList
  · rw [if_pos hm]
    refine ⟨h1, h2, ?_, h4⟩
    intro x hx
    rw [List.mem_append] at hx
    rcases hx with hx | hx
    · exact h3 x hx
    · rw [List.mem_singleton] at hx
      subst hx
      exact ⟨hm, by rw [hdel]; exact decide_eq_false (not_not_intro hm)⟩
  · rw [if_neg hm]
    refine ⟨?_, ?_, ?_, ?_⟩
    · simp only [List.map_append, h1, List.map_cons, List.map_nil]
    · simp only [List.nodup_append, List.nodup_cons, List.nodup_nil]
      refine ⟨h2, ⟨by simp, trivial⟩, ?_⟩
      intro a ha hb
      simp only [List.mem_singleton] at hb
      subst hb
      exact hm ha
    · intro x hx
      obtain ⟨hx1, hx2⟩ := h3 x hx
      exact ⟨List.mem_append_left _ hx1, hx2⟩
    · intro x hx
      rw [List.mem_append] at hx
      rcases hx with hx | hx
      · exact h4 x hx
      · rw [List.mem_singleton] at hx
        subst hx
        rw [hdel]
        exact decide_eq_true hm

theorem shp_step_inv (schemaName : List Char) (acc : ShpAcc)
    (cand : List Char × List Char × List Char) (h : shpInv acc) :
    shpInv (shp_step schemaName acc cand) := by
  simp only [shp_step]
  split
  · split
    · split
      · exact h
      · split
        · exact shp_add_inv h rfl
        · split
          · exact shp_add_inv h rfl
          · exact h
    · exact h
  · exact h

theorem shp_foldl_inv (schemaName : List Char) :
    ∀ (cands : List (List Char × List Char × List Char)) (acc : ShpAcc),
      shpInv acc → shpInv (cands.foldl (shp_step schemaName) acc) := by
  intro cands
  induction cands with
  | nil => intro acc h; exact h
  | cons c rest ih =>
    intro acc h
    simp only [List.foldl_cons]
    exact ih _ (shp_step_inv schemaName acc c h)

/-- C4: in the raw admin boundary load, the create list holds the first
occurrence of every target table (all its target tables distinct), every
append item targets a table already claimed by a create item and carries a
cleared delete flag, and the execution schedule runs the whole create list as
one parallel batch followed by the append items strictly one at a time in
list order. -/
theorem c4_append_sequential_create_parallel (schemaName : List Char)
    (states : List (List Char)) (walk : List WalkEntry) :
    (let cls := classify_shapefiles schemaName states walk
     ((cls.1.map fun i => i.pgTable).Nodup
       ∧ (∀ x ∈ cls.2, x.pgTable ∈ cls.1.map fun i => i.pgTable)
       ∧ (∀ x ∈ cls.2, x.deleteTable = false)
       ∧ (∀ x ∈ cls.1, x.deleteTable = true)
       ∧ (cls.1 ≠ [] →
           load_raw_admin_schedule cls.1 cls.2
             = ExecStep.parallelBatch cls.1 :: cls.2.map ExecStep.seqImport))) := by
  have hinv := shp_foldl_inv schemaName
    ((states.map pyLower).flatMap fun st =>
      walk.flatMap fun w => w.files.map fun f => (st, w.root, f))
    ⟨[], [], []⟩ ⟨rfl, List.nodup_nil, by intro x hx; simp at hx, by intro x hx; simp at hx⟩
  simp only [classify_shapefiles]
  obtain ⟨h1, h2, h3, h4⟩ := hinv
  refine ⟨by rw [← h1]; exact h2, ?_, ?_, h4, ?_⟩
  · intro x hx
    rw [← h1]
    exact (h3 x hx).1
  · intro x hx
    exact (h3 x hx).2
  · intro hne
    unfold load_raw_admin_schedule
    rw [if_neg (by simpa using fun hx => hne (List.length_eq_zero.mp hx))]

/-- C4 witness: on a walk holding locality shapefiles for ACT and NSW (same
target table), the scan yields a nonempty create list and a nonempty append
list, and the schedule is the parallel create batch followed by the sequential
append imports. -/
theorem c4_append_sequential_create_parallel_witness :
    (let cls := classify_shapefiles "raw_admin_bdys".toList ["ACT".toList, "NSW".toList]
        sampleAdmWalk
     cls.1 ≠ [] ∧ cls.2 ≠ []
       ∧ load_raw_admin_schedule cls.1 cls.2
           = ExecStep.parallelBatch cls.1 :: cls.2.map ExecStep.seqImport) := by
  have h := c4_append_sequential_create_parallel "raw_admin_bdys".toList
    ["ACT".toList, "NSW".toList] sampleAdmWalk
  exact ⟨by decide, by decide, h.2.2.2.2 (by decide)⟩

theorem gnafFilePath_eq (root serverdir fileName : List Char)
    (hroot : root ≠ []) (hlast : root.getLast? ≠ some '/')
    (hfile : fileName.take 1 ≠ ['/'])
    (hni : hasInfixL root ('/' :: fileName) = false)
    (hsv : serverdir.take 1 = ['/'])
    (hbs : hasInfixL [bslChar] (serverdir ++ '/' :: fileName) = false) :
    gnafFilePath root serverdir root fileName = serverdir ++ '/' :: fileName := by
  unfold gnafFilePath pyJoin
  rw [if_neg hfile, if_neg hroot, if_neg hlast]
  rw [pyReplace_append_self serverdir ('/' :: fileName) hroot]
  rw [pyReplace_eq_self root serverdir _ hni]
  rw [if_pos hsv]
  exact pyReplace_eq_self [bslChar] ['/'] _ hbs

/-- C7: for every source directory (any non-slash-terminated root whose name
does not recur inside the file paths) holding exactly the bulk-load files
authority_code_x.psv, nsw_street.psv and vic_street.psv, work discovery for a
full-state run yields exactly three COPY statements, for tables x, street and
street, schema-qualified and with the root translated to the database
server directory. -/
theorem c7_work_discovery_three_files (root : List Char)
    (hroot : root ≠ [])
    (hlast : root.getLast? ≠ some '/')
    (h1 : hasInfixL root ('/' :: "authority_code_x.psv".toList) = false)
    (h2 : hasInfixL root ('/' :: "nsw_street.psv".toList) = false)
    (h3 : hasInfixL root ('/' :: "vic_street.psv".toList) = false) :
    populate_sql_list root "/srv/gnaf".toList "raw_gnaf".toList
        [⟨root, c7Files⟩] ausStates
      = [copyStatement "raw_gnaf".toList ['x'] "/srv/gnaf/authority_code_x.psv".toList,
         copyStatement "raw_gnaf".toList "street".toList "/srv/gnaf/nsw_street.psv".toList,
         copyStatement "raw_gnaf".toList "street".toList "/srv/gnaf/vic_street.psv".toList] := by
  have e1 := gnafFilePath_eq root "/srv/gnaf".toList "authority_code_x.psv".toList
    hroot hlast (by decide) h1 (by decide) (by decide)
  have e2 := gnafFilePath_eq root "/srv/gnaf".toList "nsw_street.psv".toList
    hroot hlast (by decide) h2 (by decide) (by decide)
  have e3 := gnafFilePath_eq root "/srv/gnaf".toList "vic_street.psv".toList
    hroot hlast (by decide) h3 (by decide) (by decide)
  have e1x : gnafFilePath root "/srv/gnaf".toList root "authority_code_x.psv".toList
      = "/srv/gnaf/authority_code_x.psv".toList := by rw [e1]; decide
  have e2x : gnafFilePath root "/srv/gnaf".toList root "nsw_street.psv".toList
      = "/srv/gnaf/nsw_street.psv".toList := by rw [e2]; decide
  have e3x : gnafFilePath root "/srv/gnaf".toList root "vic_street.psv".toList
      = "/srv/gnaf/vic_street.psv".toList := by rw [e3]; decide
  simp only [populate_sql_list, get_raw_gnaf_files, ausStates, c7Files,
    List.flatMap_cons, List.flatMap_nil, List.append_nil]
  rw [e1x, e2x, e3x]
  decide

/-- C7 witness: the three-file scenario at the concrete source directory
/data/gnaf yields exactly the three schema-qualified COPY statements for
tables x, street and street. -/
theorem c7_work_discovery_three_files_witness :
    populate_sql_list "/data/gnaf".toList "/srv/gnaf".toList "raw_gnaf".toList
        [⟨"/data/gnaf".toList, c7Files⟩] ausStates
      = [copyStatement "raw_gnaf".toList ['x'] "/srv/gnaf/authority_code_x.psv".toList,
         copyStatement "raw_gnaf".toList "street".toList "/srv/gnaf/nsw_street.psv".toList,
         copyStatement "raw_gnaf".toList "street".toList "/srv/gnaf/vic_street.psv".toList] :=
  c7_work_discovery_three_files "/data/gnaf".toList (by decide) (by decide) (by decide)
    (by decide) (by decide)

theorem clean_one_table_false_no_fail (t : AuthTable) :
    (clean_one_table false t).2.2 = false := by
  unfold clean_one_table
  simp

theorem clean_loop_false_err (ts : List AuthTable) : (clean_loop false ts).2 = 0 := by
  induction ts with
  | nil => rfl
  | cons t ts ih =>
    simp only [clean_loop]
    rw [clean_one_table_false_no_fail]
    simp [ih]

theorem clean_authority_files_false_no_exit (ts : List AuthTable) :
    (clean_authority_files false ts).2.2 = false := by
  unfold clean_authority_files
  simp [clean_loop_false_err]

theorem clean_loop_fst (b : Bool) (ts : List AuthTable) :
    (clean_loop b ts).1 = ts.map fun t => (clean_one_table b t).1 := by
  induction ts with
  | nil => rfl
  | cons t ts ih =>
    simp only [clean_loop, List.map_cons]
    rw [ih]

theorem clean_loop_err_pos (b : Bool) (ts : List AuthTable) :
    (clean_loop b ts).2 > 0 ↔ ∃ t ∈ ts, (clean_one_table b t).2.2 = true := by
  induction ts with
  | nil => simp [clean_loop]
  | cons t ts ih =>
    simp only [clean_loop]
    by_cases h : (clean_one_table b t).2.2 = true
    · simp only [h, if_true]
      constructor
      · intro _
        exact ⟨t, List.mem_cons_self t ts, h⟩
      · intro _
        omega
    · rw [Bool.not_eq_true] at h
      simp only [h, Bool.false_eq_true, if_false, Nat.zero_add]
      constructor
      · intro hx
        obtain ⟨u, hu, hfail⟩ := ih.mp hx
        exact ⟨u, List.mem_cons_of_mem t hu, hfail⟩
      · rintro ⟨u, hu, hfail⟩
        rw [List.mem_cons] at hu
        rcases hu with hu | hu
        · subst hu
          rw [h] at hfail
          exact absurd hfail (by simp)
        · have := ih.mpr ⟨u, hu, hfail⟩
          omega

/-- C10 (amended): `main` returns False exactly when adding the PostGIS
extension fails; when PostGIS is available and the admin-boundary authority
cleaner counts no primary-key failure, `main` runs every remaining part and
returns True — even when zero raw GNAF PSV files were found (where it only
logs the fatal condition). -/
theorem c10_main_result_characterization (env : Env) :
    ((mainRun env).1 = Outcome.failure ↔ env.postgisOk = false)
    ∧ (env.postgisOk = true → (clean_loop true env.adminAuthTables).2 = 0 →
        (mainRun env).1 = Outcome.success) := by
  by_cases hp : env.postgisOk = true
  · have hg : (clean_authority_files false env.gnafAuthTables).2.2 = false :=
      clean_authority_files_false_no_exit _
    simp only [mainRun, hp, hg, eq_self_iff_true, if_true, Bool.false_eq_true, if_false]
    by_cases hadm : (clean_authority_files true env.adminAuthTables).2.2 = true
    · simp only [hadm, if_true]
      refine ⟨by simp, ?_⟩
      intro _ hzero
      unfold clean_authority_files at hadm
      simp only [decide_eq_true_eq] at hadm
      omega
    · rw [Bool.not_eq_true] at hadm
      simp only [hadm, Bool.false_eq_true, if_false]
      exact ⟨by simp, fun _ _ => trivial⟩
  · rw [Bool.not_eq_true] at hp
    simp only [mainRun, hp, Bool.false_eq_true, if_false]
    exact ⟨by simp, fun h _ => absurd h (by simp)⟩

/-- C10 counterexample: with PostGIS healthy but an admin-boundary authority
table keeping duplicate codes, the run is killed by `exit()` — `main` neither
returns False nor proceeds to return True, refuting "on every other path
main() proceeds through all remaining parts and returns True". -/
theorem c10_exit_counterexample :
    envDupAuth.postgisOk = true
    ∧ (mainRun envDupAuth).1 ≠ Outcome.failure
    ∧ (mainRun envDupAuth).1 ≠ Outcome.success
    ∧ (mainRun envDupAuth).1 = Outcome.exited
    ∧ stgQa ∉ (mainRun envDupAuth).2.stages := by decide

/-- C10 witness: a PostGIS-healthy run that found zero raw GNAF PSV files and
has clean authority tables still returns True. -/
theorem c10_main_result_characterization_witness :
    (mainRun envZeroBoth).1 = Outcome.success
    ∧ populate_sql_list envZeroBoth.netdir envZeroBoth.serverdir envZeroBoth.rawGnafSchema
        envZeroBoth.gnafWalk envZeroBoth.statesToLoad = [] := by
  refine ⟨(c10_main_result_characterization envZeroBoth).2 (by decide) (by decide), by decide⟩

/-- C1 (amended): when work discovery finds zero matching input files for a
required load, the dependent stage logs the fatal condition and skips its own
load (no COPY statement runs, no shapefile import is scheduled), but the
pipeline does NOT abort: with a healthy database and clean admin authority
tables, every later stage still executes and `main` still returns True. -/
theorem c1_zero_files_pipeline_continues (env : Env)
    (hp : env.postgisOk = true)
    (hadm : (clean_loop true env.adminAuthTables).2 = 0) :
    (populate_sql_list env.netdir env.serverdir env.rawGnafSchema env.gnafWalk
          env.statesToLoad = [] →
        fatalNoGnaf ∈ (mainRun env).2.fatals ∧ (mainRun env).2.copies = [])
    ∧ ((classify_shapefiles env.rawAdminSchema (env.statesToLoad ++ [authCodeStr])
          env.admWalk).1 = [] →
        fatalNoAdmin ∈ (mainRun env).2.fatals ∧ (mainRun env).2.shpSchedule = [])
    ∧ (mainRun env).1 = Outcome.success
    ∧ stgRefTables ∈ (mainRun env).2.stages
    ∧ stgQa ∈ (mainRun env).2.stages := by
  have hg : (clean_authority_files false env.gnafAuthTables).2.2 = false :=
    clean_authority_files_false_no_exit _
  have ha : (clean_authority_files true env.adminAuthTables).2.2 = false := by
    unfold clean_authority_files
    simp [hadm]
  simp only [mainRun, hp, hg, ha, eq_self_iff_true, if_true, Bool.false_eq_true, if_false]
  split <;> split <;> split <;> split <;> simp_all [List.length_eq_zero]

/-- C1 counterexample: a run whose work discovery finds zero GNAF PSV files
and zero admin boundary shapefiles logs both fatal conditions yet does NOT
abort — the reference-table and QA stages still execute and `main` returns
True, refuting "the whole pipeline aborts: no subsequent stage executes". -/
theorem c1_zero_files_counterexample :
    populate_sql_list envZeroBoth.netdir envZeroBoth.serverdir envZeroBoth.rawGnafSchema
        envZeroBoth.gnafWalk envZeroBoth.statesToLoad = []
    ∧ fatalNoGnaf ∈ (mainRun envZeroBoth).2.fatals
    ∧ fatalNoAdmin ∈ (mainRun envZeroBoth).2.fatals
    ∧ (mainRun envZeroBoth).1 = Outcome.success
    ∧ stgRefTables ∈ (mainRun envZeroBoth).2.stages
    ∧ stgQa ∈ (mainRun envZeroBoth).2.stages := by decide

/-- C1 witness: the amended statement instantiated on the environment with
empty source trees. -/
theorem c1_zero_files_pipeline_continues_witness :
    fatalNoGnaf ∈ (mainRun envZeroBoth).2.fatals
    ∧ (mainRun envZeroBoth).2.copies = []
    ∧ (mainRun envZeroBoth).1 = Outcome.success := by
  have h := c1_zero_files_pipeline_continues envZeroBoth (by decide) (by decide)
  exact ⟨(h.1 (by decide)).1, (h.1 (by decide)).2, h.2.2.1⟩

/-- C2: with index creation requested, a primary-key failure on one authority
table never stops the loop (every table is still cleaned), the `exit()` at the
end fires exactly when at least one table failed, and in the pipeline that
exit prevents every subsequent stage from executing. -/
theorem c2_pk_failure_processes_all_then_aborts (tables : List AuthTable) (env : Env)
    (hp : env.postgisOk = true)
    (hfail : (clean_loop true env.adminAuthTables).2 > 0) :
    ((clean_loop true tables).1 = tables.map (fun t => (clean_one_table true t).1))
    ∧ ((clean_authority_files true tables).2.2 = true
        ↔ ∃ t ∈ tables, (clean_one_table true t).2.2 = true)
    ∧ (mainRun env).1 = Outcome.exited
    ∧ stgPrepBdys ∉ (mainRun env).2.stages
    ∧ stgRefTables ∉ (mainRun env).2.stages
    ∧ stgQa ∉ (mainRun env).2.stages := by
  have hg : (clean_authority_files false env.gnafAuthTables).2.2 = false :=
    clean_authority_files_false_no_exit _
  have ha : (clean_authority_files true env.adminAuthTables).2.2 = true := by
    unfold clean_authority_files
    simp only [decide_eq_true_eq]
    exact hfail
  refine ⟨clean_loop_fst true tables, ?_, ?_⟩
  · unfold clean_authority_files
    simp only [decide_eq_true_eq]
    exact clean_loop_err_pos true tables
  · simp only [mainRun, hp, hg, ha, eq_self_iff_true, if_true, Bool.false_eq_true, if_false]
    split <;> split <;> split <;>
      simp_all [stgPrepBdys, stgRefTables, stgQa, stgSchemas, stgRawGnaf, stgPkFk, stgAdminBdys]

/-- C2 witness: one authority table with a duplicated code makes the cleaner
report the failure after its loop, and the pipeline dies before any later
stage. -/
theorem c2_pk_failure_processes_all_then_aborts_witness :
    (clean_authority_files true [dupCodeTable]).2.2 = true
    ∧ (mainRun envDupAuth).1 = Outcome.exited
    ∧ stgRefTables ∉ (mainRun envDupAuth).2.stages := by
  have h := c2_pk_failure_processes_all_then_aborts [dupCodeTable] envDupAuth
    (by decide) (by decide)
  exact ⟨h.2.1.mpr ⟨dupCodeTable, by decide, by decide⟩, h.2.2.1, h.2.2.2.2.1⟩

/-- C9: `load_raw_admin_boundaries` appends "authority_code" to the global
states list and nothing ever removes it, so the final states list is the
original one plus that pseudo-state, and the derived-postcode step of
`create_reference_tables` emits one statement per entry — the last one
carrying the WHERE predicate splice for the authority_code pseudo-state. -/
theorem c9_states_extended_authority_code (env : Env) (hp : env.postgisOk = true) :
    (mainRun env).2.states = env.statesToLoad ++ [authCodeStr]
    ∧ ((mainRun env).1 = Outcome.success →
        (mainRun env).2.postcodeStmts
          = derived_postcode_statements env.postcodeSql (env.statesToLoad ++ [authCodeStr])
        ∧ (mainRun env).2.postcodeStmts.length = env.statesToLoad.length + 1
        ∧ (mainRun env).2.postcodeStmts.getLast?
            = some (pyReplace groupByStr (where_state_clause authCodeStr) env.postcodeSql)) := by
  have hg := clean_authority_files_false_no_exit env.gnafAuthTables
  simp only [mainRun, hp, hg, eq_self_iff_true, if_true, Bool.false_eq_true, if_false]
  by_cases hadm : (clean_authority_files true env.adminAuthTables).2.2 = true
  · simp only [hadm, if_true]
    constructor
    · split <;> split <;> split <;> simp_all
    · intro hcon
      exact absurd hcon (by simp)
  · rw [Bool.not_eq_true] at hadm
    simp only [hadm, Bool.false_eq_true, if_false]
    constructor
    · split <;> split <;> split <;> split <;> simp_all
    · intro _
      split <;> split <;> split <;> split <;>
        simp_all [derived_postcode_statements, List.map_append, List.getLast?_concat]

/-- C9 witness: on the concrete two-state environment the final states list is
ACT, NSW, authority_code, and the last derived-postcode statement is the
authority_code one. -/
theorem c9_states_extended_authority_code_witness :
    (mainRun envZeroBoth).2.states = ["ACT".toList, "NSW".toList, authCodeStr]
    ∧ (mainRun envZeroBoth).2.postcodeStmts.getLast?
        = some (pyReplace groupByStr (where_state_clause authCodeStr)
            envZeroBoth.postcodeSql) := by
  have h := c9_states_extended_authority_code envZeroBoth (by decide)
  refine ⟨?_, (h.2 (by decide)).2.2⟩
  rw [h.1]
  decide

/-- C3 witness: the sample table with rows (1, A, NULL), (1, A, NULL),
(2, B, d) is reduced to its two distinct rows with 1 duplicate removed, and a
second cleanup run removes nothing. -/
theorem c3_dedup_exact_and_idempotent_witness :
    (dedup_step (fix_descriptions c3SampleTable)).1.rows
        = [(some ['1'], some ['A'], none), (some ['2'], some ['B'], some ['d'])]
    ∧ (dedup_step (fix_descriptions c3SampleTable)).2 = 1
    ∧ dedup_step (fix_descriptions (dedup_step (fix_descriptions c3SampleTable)).1)
        = ((dedup_step (fix_descriptions c3SampleTable)).1, 0) := by
  obtain ⟨h1, _, _, h4⟩ := c3_dedup_exact_and_idempotent c3SampleTable
  refine ⟨?_, ?_, h4⟩
  · rw [(h1 (by decide)).1]
    decide
  · rw [(h1 (by decide)).2.1]
    decide
